import Mathlib

/-!
Shallow embedding of the istio broker configuration registry
(pkg/model/config: schema.go, store.go) and the parts of its external
collaborators that the registry's contract depends on.

Source-translated definitions mirror the Go code in src/pkg/model/config.
Definitions whose Go counterpart lives outside this repository (the
protobuf runtime registry, the jsonpb/yaml codecs, the generated broker
message types from istio.io/api) are modelled from the spec and marked
as such in their doc comments.
-/

namespace Broker

/-- Generic JSON-like tree: the `map[string]interface{}` universe that
`ToJSONMap` produces and `FromJSONMap` consumes. Objects are ordered
association lists of fields. -/
inductive JValue where
  | str : String → JValue
  | arr : List JValue → JValue
  | obj : List (String × JValue) → JValue

/-- Modelled from the spec: the generated message type
`istio.broker.v1.config.Deployment` (field `instance`, a string), from
istio.io/api which is external to this repository. -/
structure Deployment where
  instanceName : String
deriving DecidableEq, Repr

/-- Modelled from the spec: the generated message type
`istio.broker.v1.config.CatalogEntry` (fields `name`, `id`,
`description`), external to this repository. -/
structure CatalogEntry where
  name : String
  id : String
  description : String
deriving DecidableEq, Repr

/-- Modelled from the spec: the generated message type
`istio.broker.v1.config.CatalogPlan` (fields `name`, `id`,
`description`), external to this repository. -/
structure CatalogPlan where
  name : String
  id : String
  description : String
deriving DecidableEq, Repr

/-- Modelled from the spec: the generated message type
`istio.broker.v1.config.ServiceClass`: an optional `deployment`
submessage and an optional catalog `entry` submessage (message-typed
fields are pointers in Go, hence `Option`). -/
structure ServiceClassMsg where
  deployment : Option Deployment
  entry : Option CatalogEntry
deriving DecidableEq, Repr

/-- Modelled from the spec: the generated message type
`istio.broker.v1.config.ServicePlan`: an optional `plan` submessage and
a repeated string field `services` (the foreign-key-like list relating
a plan to service classes). -/
structure ServicePlanMsg where
  plan : Option CatalogPlan
  services : List String
deriving DecidableEq, Repr

/-- The closed universe of proto messages registered by this repository:
`proto.Message` values that can appear as a config payload. -/
inductive ProtoMessage where
  | serviceClass : ServiceClassMsg → ProtoMessage
  | servicePlan : ServicePlanMsg → ProtoMessage
deriving DecidableEq, Repr

/-- The message kind a fully-qualified message name resolves to. -/
inductive MsgKind where
  | serviceClass
  | servicePlan
deriving DecidableEq, Repr

/-- The kind of a concrete message value. -/
def ProtoMessage.kind : ProtoMessage → MsgKind
  | .serviceClass _ => .serviceClass
  | .servicePlan _ => .servicePlan

/-- Modelled from the spec: `proto.MessageType`, the process-wide
protobuf registry (external to this repository). The two names below
are the message names registered by the broker's schemas in
pkg/model/config/store.go; every other name is unresolvable. -/
def protoMessageType (name : String) : Option MsgKind :=
  if name = "istio.broker.v1.config.ServiceClass" then some MsgKind.serviceClass
  else if name = "istio.broker.v1.config.ServicePlan" then some MsgKind.servicePlan
  else none

/-! ### Canonical JSON codec for the broker message types

Modelled from the spec: the jsonpb marshaller/unmarshaller (proto3
canonical JSON) is external to this repository. Encoding omits fields
holding their zero value (empty string, empty list, nil submessage), as
jsonpb does with default options; decoding fills absent fields with the
zero value of a freshly made instance and rejects unknown field names.
The yaml transport step inside `FromJSONMap` (generic map → yaml bytes →
json) is faithful on these string-valued trees and is modelled as the
identity on the generic tree. -/

/-- Encode one string field, omitted when it holds the proto3 default. -/
def optStrField (key v : String) : List (String × JValue) :=
  if v = "" then [] else [(key, JValue.str v)]

/-- Encode one submessage field, omitted when the pointer is nil. -/
def optMsgField (key : String) : Option JValue → List (String × JValue)
  | none => []
  | some j => [(key, j)]

def encodeDeployment (d : Deployment) : JValue :=
  .obj (optStrField "instance" d.instanceName)

def encodeCatalogEntry (e : CatalogEntry) : JValue :=
  .obj (optStrField "name" e.name ++ optStrField "id" e.id ++
        optStrField "description" e.description)

def encodeCatalogPlan (p : CatalogPlan) : JValue :=
  .obj (optStrField "name" p.name ++ optStrField "id" p.id ++
        optStrField "description" p.description)

def encodeServiceClass (c : ServiceClassMsg) : JValue :=
  .obj (optMsgField "deployment" (c.deployment.map encodeDeployment) ++
        optMsgField "entry" (c.entry.map encodeCatalogEntry))

def encodeServicePlan (p : ServicePlanMsg) : JValue :=
  .obj (optMsgField "plan" (p.plan.map encodeCatalogPlan) ++
        (if p.services = [] then []
         else [("services", JValue.arr (p.services.map JValue.str))]))

def encodeMessage : ProtoMessage → JValue
  | .serviceClass c => encodeServiceClass c
  | .servicePlan p => encodeServicePlan p

/-- Field lookup in a generic JSON object (first match). -/
def lookupField : List (String × JValue) → String → Option JValue
  | [], _ => none
  | (k, v) :: rest, key => if k = key then some v else lookupField rest key

/-- Every field name of the object is a known field of the target
message type; jsonpb rejects unknown fields. -/
def fieldsAllowed (fields : List (String × JValue)) (allowed : List String) : Bool :=
  fields.all fun kv => allowed.contains kv.1

/-- Decode a string field; an absent field keeps the zero value. -/
def decodeStr : Option JValue → Except String String
  | none => .ok ""
  | some (.str s) => .ok s
  | some _ => .error "expected a string value"

/-- Decode the elements of a repeated string field. -/
def decodeStrElems : List JValue → Except String (List String)
  | [] => .ok []
  | j :: rest =>
      match j with
      | .str s =>
          match decodeStrElems rest with
          | .error e => .error e
          | .ok ss => .ok (s :: ss)
      | _ => .error "expected a string element"

/-- Decode a repeated string field; an absent field keeps the empty list. -/
def decodeStrList : Option JValue → Except String (List String)
  | none => .ok []
  | some (.arr xs) => decodeStrElems xs
  | some _ => .error "expected an array value"

/-- Decode an optional submessage field; an absent field stays nil. -/
def decodeOptMsg {α : Type} (dec : JValue → Except String α) :
    Option JValue → Except String (Option α)
  | none => .ok none
  | some j => (dec j).map some

def decodeDeployment (j : JValue) : Except String Deployment :=
  match j with
  | .obj fields =>
      if fieldsAllowed fields ["instance"] then
        match decodeStr (lookupField fields "instance") with
        | .error e => .error e
        | .ok i => .ok ⟨i⟩
      else .error "unknown field"
  | _ => .error "expected an object"

def decodeCatalogEntry (j : JValue) : Except String CatalogEntry :=
  match j with
  | .obj fields =>
      if fieldsAllowed fields ["name", "id", "description"] then
        match decodeStr (lookupField fields "name") with
        | .error e => .error e
        | .ok n =>
            match decodeStr (lookupField fields "id") with
            | .error e => .error e
            | .ok i =>
                match decodeStr (lookupField fields "description") with
                | .error e => .error e
                | .ok d => .ok ⟨n, i, d⟩
      else .error "unknown field"
  | _ => .error "expected an object"

def decodeCatalogPlan (j : JValue) : Except String CatalogPlan :=
  match j with
  | .obj fields =>
      if fieldsAllowed fields ["name", "id", "description"] then
        match decodeStr (lookupField fields "name") with
        | .error e => .error e
        | .ok n =>
            match decodeStr (lookupField fields "id") with
            | .error e => .error e
            | .ok i =>
                match decodeStr (lookupField fields "description") with
                | .error e => .error e
                | .ok d => .ok ⟨n, i, d⟩
      else .error "unknown field"
  | _ => .error "expected an object"

def decodeServiceClass (j : JValue) : Except String ServiceClassMsg :=
  match j with
  | .obj fields =>
      if fieldsAllowed fields ["deployment", "entry"] then
        match decodeOptMsg decodeDeployment (lookupField fields "deployment") with
        | .error e => .error e
        | .ok d =>
            match decodeOptMsg decodeCatalogEntry (lookupField fields "entry") with
            | .error e => .error e
            | .ok en => .ok ⟨d, en⟩
      else .error "unknown field"
  | _ => .error "expected an object"

def decodeServicePlan (j : JValue) : Except String ServicePlanMsg :=
  match j with
  | .obj fields =>
      if fieldsAllowed fields ["plan", "services"] then
        match decodeOptMsg decodeCatalogPlan (lookupField fields "plan") with
        | .error e => .error e
        | .ok p =>
            match decodeStrList (lookupField fields "services") with
            | .error e => .error e
            | .ok ss => .ok ⟨p, ss⟩
      else .error "unknown field"
  | _ => .error "expected an object"

/-- Decode a generic tree as an instance of the given message kind
(jsonpb unmarshal into a freshly made zero instance). -/
def decodeAs : MsgKind → JValue → Except String ProtoMessage
  | .serviceClass, j => (decodeServiceClass j).map ProtoMessage.serviceClass
  | .servicePlan, j => (decodeServicePlan j).map ProtoMessage.servicePlan

/-! ### Schema (pkg/model/config/schema.go) -/

/-- `Schema` from pkg/model/config/schema.go. Go field names `Type`,
`Plural`, `MessageName`, `AdditionalValidate`; `Type` is renamed
`type_` because it is a Lean keyword. `AdditionalValidate` takes a
possibly-nil `proto.Message` (hence `Option ProtoMessage`) and returns
a possibly-nil error. -/
structure Schema where
  type_ : String
  plural : String
  messageName : String
  additionalValidate : Option (Option ProtoMessage → Option String)

/-- The Go zero value `Schema{}`. -/
def Schema.zero : Schema :=
  ⟨"", "", "", none⟩

/-- `dns1123LabelMaxLength` from schema.go. -/
def dns1123LabelMaxLength : Nat := 63

/-- A character of the class `[a-z0-9]`. -/
def isDNSChar (c : Char) : Bool :=
  (97 ≤ c.toNat && c.toNat ≤ 122) || (48 ≤ c.toNat && c.toNat ≤ 57)

/-- A character of the class `[-a-z0-9]`. -/
def isDNSMidChar (c : Char) : Bool :=
  isDNSChar c || c = '-'

/-- Recognizer for the suffix language `([-a-z0-9]*[a-z0-9])?`: either
empty, or every character is in `[-a-z0-9]` and the last one is in
`[a-z0-9]`. -/
def labelTail : List Char → Bool
  | [] => true
  | [c] => isDNSChar c
  | c :: c2 :: rest => isDNSMidChar c && labelTail (c2 :: rest)

/-- The language of the anchored regular expression
`^[a-z0-9]([-a-z0-9]*[a-z0-9])?$` (`dns1123LabelRex` in schema.go):
a nonempty string whose first character is in `[a-z0-9]` followed by a
`labelTail` suffix. -/
def dns1123LabelMatch (s : String) : Bool :=
  match s.toList with
  | [] => false
  | c :: rest => isDNSChar c && labelTail rest

/-- `isDNS1123Label` from schema.go: Go `len` is the byte length of the
UTF-8 encoding, then the regex match. -/
def isDNS1123Label (value : String) : Bool :=
  value.utf8ByteSize ≤ dns1123LabelMaxLength && dns1123LabelMatch value

/-- `Schema.Make` from schema.go: resolves `MessageName` through the
proto registry; `Except.error` models the non-nil Go error. The zero
instance it returns is determined by the kind, so the kind stands for
the instance here. -/
def Schema.Make (ps : Schema) : Except String MsgKind :=
  match protoMessageType ps.messageName with
  | none => .error ("unknown type " ++ ps.messageName)
  | some k => .ok k

/-- `Schema.ToJSONMap` from schema.go: jsonpb-marshal the message to
canonical JSON text and unmarshal that text into a generic map. For the
broker message types the marshal step cannot fail and the unmarshal of
its own output always succeeds, so the composite is total; as in the
source, the receiver schema is not consulted. -/
def Schema.ToJSONMap (_ps : Schema) (msg : ProtoMessage) : Except String JValue :=
  .ok (encodeMessage msg)

/-- `Schema.FromJSONMap` from schema.go: marshal the generic map to
yaml bytes (faithful transport, modelled as the identity on the tree),
then `FromYAML` = `Make` (resolve `MessageName`, error if unknown)
followed by yaml→json→jsonpb unmarshal into the fresh instance. -/
def Schema.FromJSONMap (ps : Schema) (data : JValue) : Except String ProtoMessage :=
  match protoMessageType ps.messageName with
  | none => .error ("unknown type " ++ ps.messageName)
  | some k => decodeAs k data

/-- `Schema.Validate` from schema.go: structural checks on `Type`,
`Plural` and `MessageName` in that order, then `AdditionalValidate` if
set. `none` models the nil error. -/
def Schema.Validate (ps : Schema) (config : Option ProtoMessage) : Option String :=
  if !isDNS1123Label ps.type_ then some ("invalid type: " ++ ps.type_)
  else if !isDNS1123Label ps.plural then some ("invalid plural: " ++ ps.plural)
  else if (protoMessageType ps.messageName).isNone then
    some ("cannot discover proto message type: " ++ ps.messageName)
  else
    match ps.additionalValidate with
    | some f => f config
    | none => none

/-! ### Descriptor (pkg/model/config/schema.go) -/

/-- `Descriptor` from schema.go: a slice of Schemas in registration
order. -/
abbrev Descriptor := List Schema

/-- `Descriptor.Types` from schema.go. -/
def Descriptor.Types (descriptor : Descriptor) : List String :=
  descriptor.map fun t => t.type_

/-- `Descriptor.GetByMessageName` from schema.go: first schema whose
`MessageName` equals the argument, else `(Schema{}, false)`. -/
def Descriptor.GetByMessageName : Descriptor → String → Schema × Bool
  | [], _ => (Schema.zero, false)
  | schema :: rest, name =>
      if schema.messageName = name then (schema, true)
      else Descriptor.GetByMessageName rest name

/-- `Descriptor.GetByType` from schema.go: first schema whose `Type`
equals the argument, else `(Schema{}, false)`. -/
def Descriptor.GetByType : Descriptor → String → Schema × Bool
  | [], _ => (Schema.zero, false)
  | schema :: rest, name =>
      if schema.type_ = name then (schema, true)
      else Descriptor.GetByType rest name

/-- `Meta` metadata of a config object (the `ConfigMeta` shape of
pkg/model/config.go, embedded in `JSONConfig` and `Entry`);
`namespace` is renamed `namespace_` because it is a Lean keyword. -/
structure Meta where
  type_ : String
  name : String
  namespace_ : String
  istioNamespace : String
  labels : List (String × String)
  annotations : List (String × String)
  resourceVersion : String
deriving DecidableEq, Repr

/-- `JSONConfig` from schema.go: metadata plus the untyped spec tree. -/
structure JSONConfig where
  meta : Meta
  spec : JValue

/-- `Entry` of the config package: metadata plus the typed payload
(the `Config` shape of pkg/model/config.go). -/
structure Entry where
  meta : Meta
  spec : ProtoMessage

/-- `Descriptor.FromJSON` from schema.go: resolve the schema by the
object's type name, decode the spec via `FromJSONMap`, validate, and
only then build the Entry from the object's metadata and the decoded
message. -/
def Descriptor.FromJSON (descriptor : Descriptor) (config : JSONConfig) :
    Except String Entry :=
  match descriptor.GetByType config.meta.type_ with
  | (_, false) => .error ("unknown spec type " ++ config.meta.type_)
  | (schema, true) =>
      match schema.FromJSONMap config.spec with
      | .error err => .error ("cannot parse proto message: " ++ err)
      | .ok message =>
          match schema.Validate (some message) with
          | some err => .error err
          | none => .ok ⟨config.meta, message⟩

/-! ### Key and the store views (pkg/model/config/store.go) -/

/-- `Key` from store.go: `fmt.Sprintf("%s/%s/%s", typ, namespace, name)`.
Note that the second argument (`name`) is placed last. -/
def Key (typ name namespace_ : String) : String :=
  typ ++ "/" ++ namespace_ ++ "/" ++ name

/-- `Entry.Key` from store.go: `Key(entry.Type, entry.Name,
entry.Namespace)`. -/
def Entry.Key (entry : Entry) : String :=
  Broker.Key entry.meta.type_ entry.meta.name entry.meta.namespace_

/-- The `ServiceClass` schema registered in store.go. -/
def ServiceClass : Schema :=
  ⟨"service-class", "service-classes", "istio.broker.v1.config.ServiceClass", none⟩

/-- The `ServicePlan` schema registered in store.go. -/
def ServicePlan : Schema :=
  ⟨"service-plan", "service-plans", "istio.broker.v1.config.ServicePlan", none⟩

/-- The descriptor holding the schemas the broker registers (store.go
registers exactly these two). -/
def brokerDescriptor : Descriptor :=
  [ServiceClass, ServicePlan]

/-- The face of the generic `Store` interface that the broker view
adapter consumes: `List(typ, namespace)` returning either entries or an
error. The other `Store` methods are not used by the adapter. -/
structure Store where
  list : String → String → Except String (List Entry)

/-- Go map insertion `out[k] = v` on an association-list model of
`map[string]…`: replace the binding if the key is present, append it
otherwise. -/
def mapInsert {α : Type} : List (String × α) → String → α → List (String × α)
  | [], k, v => [(k, v)]
  | (k', v') :: rest, k, v =>
      if k' = k then (k, v) :: rest else (k', v') :: mapInsert rest k v

/-- The dynamic type assertion `r.Spec.(*brokerconfig.ServiceClass)`. -/
def specAsServiceClass : ProtoMessage → Option ServiceClassMsg
  | .serviceClass c => some c
  | _ => none

/-- The dynamic type assertion `r.Spec.(*brokerconfig.ServicePlan)`. -/
def specAsServicePlan : ProtoMessage → Option ServicePlanMsg
  | .servicePlan p => some p
  | _ => none

/-- `brokerConfigStore.ServiceClasses` from store.go: list all entries
of the service-class kind across namespaces; on a List error return the
(still empty) map; otherwise insert every entry whose payload is a
`ServiceClass`, keyed by the entry's store key. -/
def ServiceClasses (i : Store) : List (String × ServiceClassMsg) :=
  match i.list ServiceClass.type_ "" with
  | .error _ => []
  | .ok rs =>
      rs.foldl
        (fun out r =>
          match specAsServiceClass r.spec with
          | some c => mapInsert out r.Key c
          | none => out)
        []

/-- `brokerConfigStore.ServicePlans` from store.go: the same view for
the service-plan kind. -/
def ServicePlans (i : Store) : List (String × ServicePlanMsg) :=
  match i.list ServicePlan.type_ "" with
  | .error _ => []
  | .ok rs =>
      rs.foldl
        (fun out r =>
          match specAsServicePlan r.spec with
          | some p => mapInsert out r.Key p
          | none => out)
        []

/-- `brokerConfigStore.ServicePlansByService` from store.go: scan the
whole `ServicePlans` view; a plan is kept when the service name occurs
anywhere in its `services` list (the inner loop breaks at the first
occurrence, which is `List.any`). -/
def ServicePlansByService (i : Store) (service : String) :
    List (String × ServicePlanMsg) :=
  (ServicePlans i).foldl
    (fun out kv =>
      if kv.2.services.any (fun s => s = service) then
        mapInsert out kv.1 kv.2
      else out)
    []

/-! ### Store mutation contract (spec §4.3, §5)

Modelled from the spec: the repository contains only the `Store`
interface and its documentation (store.go lines 25–79); no backing
implementation is under src/. The state machine below follows the
spec's words: a logical object is `Absent` or `Present(revision)`;
`Update` requires the submitted revision to equal the stored one by
pure equality and on success assigns a fresh revision the store has
never used (freshness is kept by the `nextRev` counter together with
the invariant that the stored revision is below it). Atomicity of the
revision check means two concurrent updates linearize to the two
sequential orders. -/

/-- A Present object: payload plus its current revision. -/
structure ObjState where
  spec : ProtoMessage
  rev : Nat
deriving DecidableEq, Repr

/-- The store's state for one logical (type, name, namespace) key:
the object (`none` = Absent) and the next fresh revision. -/
structure StoreCell where
  obj : Option ObjState
  nextRev : Nat

/-- Store errors of the mutation contract. -/
inductive StoreErr where
  | notFound
  | conflict
deriving DecidableEq, Repr

/-- Modelled from the spec: `Update` — `NotFound` when Absent,
`Conflict` unless the submitted revision equals the stored one, and on
success a new revision is assigned by the store. -/
def updateOp (cell : StoreCell) (newSpec : ProtoMessage) (rv : Nat) :
    StoreCell × Except StoreErr Nat :=
  match cell.obj with
  | none => (cell, .error .notFound)
  | some o =>
      if rv = o.rev then
        (⟨some ⟨newSpec, cell.nextRev⟩, cell.nextRev + 1⟩, .ok cell.nextRev)
      else
        (cell, .error .conflict)

/-- Modelled from the spec: `Get` on the cell — the object and whether
it exists. -/
def getOp (cell : StoreCell) : Option ObjState :=
  cell.obj

/-! ### Theorems -/

/-- Claim C7: the derived key of a configuration entry is the
concatenation `Type ++ "/" ++ Namespace ++ "/" ++ Name`, and
`Entry.Key` agrees with `Key` applied to the entry's `Type`, `Name`
and `Namespace` fields. -/
theorem key_concatenation_spec :
    (∀ typ name namespace_ : String,
      Key typ name namespace_ = typ ++ "/" ++ namespace_ ++ "/" ++ name) ∧
    (∀ e : Entry,
      e.Key = e.meta.type_ ++ "/" ++ e.meta.namespace_ ++ "/" ++ e.meta.name) ∧
    (∀ e : Entry, e.Key = Key e.meta.type_ e.meta.name e.meta.namespace_) :=
  ⟨fun _ _ _ => rfl, fun _ => rfl, fun _ => rfl⟩

/-- Claim C9: `Key` is not injective on (Type, Name, Namespace)
triples once names or namespaces may contain a slash:
`Key "t" "a" "b/c"` and `Key "t" "c/a" "b"` are both `"t/b/c/a"`
although the triples differ, so key equality does not imply identity
of the logical object. -/
theorem key_not_injective :
    Key "t" "a" "b/c" = Key "t" "c/a" "b" ∧
    ¬(("t", "a", "b/c") = (("t", "c/a", "b") : String × String × String)) := by
  constructor
  · rfl
  · decide

/-- Claim C2: `Schema.Validate` fails whenever `Type` or `Plural` is
not a DNS-1123 label or `MessageName` is unresolvable, and in those
cases the result does not depend on `AdditionalValidate` (it is never
invoked); when all structural checks pass, `AdditionalValidate` is
invoked and its result is returned to the caller unchanged. -/
theorem schema_validate_structural_spec (ps : Schema) (m : Option ProtoMessage) :
    ((isDNS1123Label ps.type_ = false ∨ isDNS1123Label ps.plural = false ∨
        protoMessageType ps.messageName = none) →
      (ps.Validate m).isSome = true ∧
      ∀ f, Schema.Validate ⟨ps.type_, ps.plural, ps.messageName, f⟩ m =
        ps.Validate m) ∧
    (isDNS1123Label ps.type_ = true → isDNS1123Label ps.plural = true →
      (protoMessageType ps.messageName).isSome = true →
      ∀ f, Schema.Validate ⟨ps.type_, ps.plural, ps.messageName, some f⟩ m = f m) := by
  obtain ⟨t, p, mn, av⟩ := ps
  constructor
  · intro h
    cases htype : isDNS1123Label t with
    | false =>
        exact ⟨by simp [Schema.Validate, htype], fun f => by simp [Schema.Validate, htype]⟩
    | true =>
        cases hplural : isDNS1123Label p with
        | false =>
            exact ⟨by simp [Schema.Validate, htype, hplural],
                   fun f => by simp [Schema.Validate, htype, hplural]⟩
        | true =>
            have hmsg : protoMessageType mn = none := by
              rcases h with h | h | h
              · rw [htype] at h; cases h
              · rw [hplural] at h; cases h
              · exact h
            exact ⟨by simp [Schema.Validate, htype, hplural, hmsg],
                   fun f => by simp [Schema.Validate, htype, hplural, hmsg]⟩
  · intro h1 h2 h3 f
    cases hmsg : protoMessageType mn with
    | none => rw [hmsg] at h3; cases h3
    | some k => simp [Schema.Validate, h1, h2, hmsg]

/-- Witness for C2: a schema with an invalid `Type` fails `Validate`,
and on a structurally sound schema the additional validator's error is
returned unchanged. -/
theorem schema_validate_structural_spec_witness :
    (Schema.Validate ⟨"Bad", "bads", "nope", none⟩ none).isSome = true ∧
    Schema.Validate
      ⟨"service-class", "service-classes", "istio.broker.v1.config.ServiceClass",
        some fun _ => some "boom"⟩ none = some "boom" := by
  constructor
  · exact ((schema_validate_structural_spec ⟨"Bad", "bads", "nope", none⟩ none).1
      (Or.inl (by decide))).1
  · exact (schema_validate_structural_spec
      ⟨"service-class", "service-classes", "istio.broker.v1.config.ServiceClass",
        none⟩ none).2 (by decide) (by decide) (by decide) (fun _ => some "boom")

/-- Claim C10: when `AdditionalValidate` is nil, `Schema.Validate`
never inspects the message: the result is the same for all messages
(nil included), and it is nil whenever the structural checks pass. -/
theorem validate_ignores_message_when_no_additional (ps : Schema)
    (h : ps.additionalValidate = none) (m1 m2 : Option ProtoMessage) :
    ps.Validate m1 = ps.Validate m2 ∧
    (isDNS1123Label ps.type_ = true → isDNS1123Label ps.plural = true →
      (protoMessageType ps.messageName).isSome = true → ps.Validate m1 = none) := by
  constructor
  · simp [Schema.Validate, h]
  · intro h1 h2 h3
    cases hmsg : protoMessageType ps.messageName with
    | none => rw [hmsg] at h3; cases h3
    | some k => simp [Schema.Validate, h, h1, h2, hmsg]

/-- Witness for C10: the registered `ServiceClass` schema has no
additional validator; `Validate` agrees on nil and on a mismatched
message, and accepts both. -/
theorem validate_ignores_message_witness :
    Schema.Validate ServiceClass none =
      Schema.Validate ServiceClass (some (ProtoMessage.servicePlan ⟨none, []⟩)) ∧
    Schema.Validate ServiceClass none = none := by
  constructor
  · exact (validate_ignores_message_when_no_additional ServiceClass rfl none
      (some (ProtoMessage.servicePlan ⟨none, []⟩))).1
  · exact (validate_ignores_message_when_no_additional ServiceClass rfl none none).2
      (by decide) (by decide) (by decide)

/-- Claim C8: `GetByType` and `GetByMessageName` never error: they
return `(Schema{}, false)` when no schema matches, and the first
schema in registration order with the matching `Type`
(resp. `MessageName`) together with `true` otherwise. -/
theorem descriptor_lookup_spec (d : Descriptor) (name : String) :
    d.GetByType name =
      (match d.find? (fun s => s.type_ == name) with
       | some s => (s, true)
       | none => (Schema.zero, false)) ∧
    d.GetByMessageName name =
      (match d.find? (fun s => s.messageName == name) with
       | some s => (s, true)
       | none => (Schema.zero, false)) := by
  constructor
  · induction d with
    | nil => rfl
    | cons s rest ih =>
        by_cases h : s.type_ = name
        · simp [Descriptor.GetByType, h]
        · simp [Descriptor.GetByType, h, ih]
  · induction d with
    | nil => rfl
    | cons s rest ih =>
        by_cases h : s.messageName = name
        · simp [Descriptor.GetByMessageName, h]
        · simp [Descriptor.GetByMessageName, h, ih]

/-- Claim C4: the broker view adapter absorbs `List` errors — on a
List error both `ServiceClasses` and `ServicePlans` return the empty
map, and their return type carries no error to the caller. -/
theorem views_absorb_list_errors (st : Store) (e e' : String) :
    (st.list ServiceClass.type_ "" = .error e → ServiceClasses st = []) ∧
    (st.list ServicePlan.type_ "" = .error e' → ServicePlans st = []) := by
  constructor
  · intro h; simp [ServiceClasses, h]
  · intro h; simp [ServicePlans, h]

/-- A store whose List always fails. -/
def failingStore : Store :=
  ⟨fun _ _ => .error "store unavailable"⟩

/-- Witness for C4: on the always-failing store both views are empty. -/
theorem views_absorb_list_errors_witness :
    ServiceClasses failingStore = [] ∧ ServicePlans failingStore = [] :=
  ⟨(views_absorb_list_errors failingStore "store unavailable" "store unavailable").1 rfl,
   (views_absorb_list_errors failingStore "store unavailable" "store unavailable").2 rfl⟩

/-- The key set of an association-list map. -/
def keys {α : Type} (m : List (String × α)) : List String :=
  m.map Prod.fst

theorem mapInsert_of_not_mem {α : Type} (m : List (String × α)) (k : String)
    (v : α) (h : k ∉ keys m) : mapInsert m k v = m ++ [(k, v)] := by
  induction m with
  | nil => rfl
  | cons kv rest ih =>
      obtain ⟨k', v'⟩ := kv
      simp only [keys, List.map_cons, List.mem_cons] at h
      push_neg at h
      simp only [mapInsert, if_neg (Ne.symm h.1), List.cons_append, List.cons.injEq,
        true_and]
      exact ih h.2

theorem mem_keys_mapInsert {α : Type} (m : List (String × α)) (k a : String)
    (v : α) : a ∈ keys (mapInsert m k v) ↔ a ∈ keys m ∨ a = k := by
  induction m with
  | nil => simp [mapInsert, keys]
  | cons kv rest ih =>
      obtain ⟨k', v'⟩ := kv
      by_cases h : k' = k
      · subst h
        simp [mapInsert, keys]
        tauto
      · simp [mapInsert, h, keys] at ih ⊢
        tauto

theorem nodup_keys_mapInsert {α : Type} (m : List (String × α)) (k : String)
    (v : α) (h : (keys m).Nodup) : (keys (mapInsert m k v)).Nodup := by
  induction m with
  | nil => simp [mapInsert, keys]
  | cons kv rest ih =>
      obtain ⟨k', v'⟩ := kv
      simp only [keys, List.map_cons, List.nodup_cons] at h
      by_cases hk : k' = k
      · subst hk
        simpa [mapInsert, keys] using h
      · simp only [mapInsert, if_neg hk, keys, List.map_cons, List.nodup_cons]
        refine ⟨fun hmem => ?_, ih h.2⟩
        rcases (mem_keys_mapInsert rest k k' v).1 hmem with hm | hm
        · exact h.1 hm
        · exact hk hm

/-- Inserting each element of a nodup-keyed map that satisfies `p` into
an accumulator with disjoint keys appends exactly the `p`-filtered
map. -/
theorem foldl_filter_insert {α : Type} (p : String × α → Bool) :
    ∀ (m out : List (String × α)), (keys m).Nodup →
      (∀ a ∈ keys out, a ∉ keys m) →
      m.foldl (fun acc kv => if p kv then mapInsert acc kv.1 kv.2 else acc) out =
        out ++ m.filter p := by
  intro m
  induction m with
  | nil => intro out _ _; simp
  | cons kv rest ih =>
      intro out hnodup hdisj
      simp only [keys, List.map_cons, List.nodup_cons] at hnodup
      simp only [List.foldl_cons]
      by_cases hp : p kv
      · have hk : kv.1 ∉ keys out := fun hmem =>
          hdisj kv.1 hmem (by simp [keys])
        rw [if_pos hp, mapInsert_of_not_mem out kv.1 kv.2 hk,
          ih (out ++ [kv]) hnodup.2 ?_]
        · simp [List.filter_cons, hp]
        · intro a ha
          simp only [keys, List.map_append, List.mem_append, List.map_cons,
            List.mem_singleton, List.map_nil, List.mem_cons] at ha
          rcases ha with ha | ha
          · exact fun hmem => hdisj a ha (List.mem_cons_of_mem kv.1 hmem)
          · simp only [List.not_mem_nil, or_false] at ha
            subst ha
            exact hnodup.1
      · rw [if_neg hp, ih out hnodup.2 ?_]
        · simp [List.filter_cons, hp]
        · intro a ha
          exact fun hmem => hdisj a ha (List.mem_cons_of_mem kv.1 hmem)

/-- The `ServicePlans` view is a Go map: its keys are unique. -/
theorem servicePlans_keys_nodup (i : Store) : (keys (ServicePlans i)).Nodup := by
  have hgen : ∀ (rs : List Entry) (out : List (String × ServicePlanMsg)),
      (keys out).Nodup →
      (keys (rs.foldl
        (fun out r =>
          match specAsServicePlan r.spec with
          | some p => mapInsert out r.Key p
          | none => out) out)).Nodup := by
    intro rs
    induction rs with
    | nil => intro out hout; simpa using hout
    | cons r rest ih =>
        intro out hout
        simp only [List.foldl_cons]
        cases hspec : specAsServicePlan r.spec with
        | none => simp only [hspec]; exact ih out hout
        | some p => simp only [hspec]; exact ih _ (nodup_keys_mapInsert out r.Key p hout)
  unfold ServicePlans
  cases h : i.list ServicePlan.type_ "" with
  | error e => exact List.nodup_nil
  | ok rs => exact hgen rs [] List.nodup_nil

/-- Claim C5: `ServicePlansByService s` keeps exactly the plans of the
`ServicePlans` view whose `services` list contains `s` anywhere — a
membership test, not an equality test — while every plan of the view
is examined. -/
theorem servicePlansByService_membership (st : Store) (service k : String)
    (v : ServicePlanMsg) :
    (k, v) ∈ ServicePlansByService st service ↔
      ((k, v) ∈ ServicePlans st ∧ service ∈ v.services) := by
  unfold ServicePlansByService
  rw [foldl_filter_insert (fun kv => kv.2.services.any (fun s => s = service))
    (ServicePlans st) [] (servicePlans_keys_nodup st)
    (fun a ha => absurd ha (List.not_mem_nil a))]
  simp only [List.nil_append, List.mem_filter, List.any_eq_true,
    decide_eq_true_eq, exists_eq_right]

/-- Claim C6: under the spec's atomic revision check, two updates both
submitted against revision R1 of a Present object linearize to one of
the two sequential orders; in each order the first returns a fresh
revision different from R1, the second fails with `Conflict`, and a
subsequent `Get` sees exactly the one post-update value (the winner's
payload at the new revision). The theorem covers both orders since the
two payloads are arbitrary. -/
theorem optimistic_concurrency (cell : StoreCell) (o : ObjState)
    (s1 s2 : ProtoMessage) (hobj : cell.obj = some o)
    (hfresh : o.rev < cell.nextRev) :
    ∃ r2, (updateOp cell s1 o.rev).2 = .ok r2 ∧ r2 ≠ o.rev ∧
      (updateOp (updateOp cell s1 o.rev).1 s2 o.rev).2 = .error .conflict ∧
      getOp (updateOp (updateOp cell s1 o.rev).1 s2 o.rev).1 = some ⟨s1, r2⟩ := by
  have hne : o.rev ≠ cell.nextRev := Nat.ne_of_lt hfresh
  refine ⟨cell.nextRev, ?_, fun hc => hne hc.symm, ?_, ?_⟩
  · simp [updateOp, hobj]
  · simp [updateOp, hobj, hne]
  · simp [updateOp, getOp, hobj, hne]

theorem decodeDeployment_roundtrip (d : Deployment) :
    decodeDeployment (encodeDeployment d) = .ok d := by
  obtain ⟨i⟩ := d
  by_cases h : i = ""
  · subst h; rfl
  · simp [encodeDeployment, decodeDeployment, optStrField, lookupField,
      fieldsAllowed, decodeStr, h]

theorem decodeCatalogEntry_roundtrip (e : CatalogEntry) :
    decodeCatalogEntry (encodeCatalogEntry e) = .ok e := by
  obtain ⟨n, i, d⟩ := e
  by_cases hn : n = "" <;> by_cases hi : i = "" <;> by_cases hd : d = "" <;>
    simp [encodeCatalogEntry, decodeCatalogEntry, optStrField, lookupField,
      fieldsAllowed, decodeStr, hn, hi, hd]

theorem decodeCatalogPlan_roundtrip (p : CatalogPlan) :
    decodeCatalogPlan (encodeCatalogPlan p) = .ok p := by
  obtain ⟨n, i, d⟩ := p
  by_cases hn : n = "" <;> by_cases hi : i = "" <;> by_cases hd : d = "" <;>
    simp [encodeCatalogPlan, decodeCatalogPlan, optStrField, lookupField,
      fieldsAllowed, decodeStr, hn, hi, hd]

theorem decodeStrElems_roundtrip (xs : List String) :
    decodeStrElems (xs.map JValue.str) = .ok xs := by
  induction xs with
  | nil => rfl
  | cons x rest ih => simp [decodeStrElems, ih]

theorem decodeServiceClass_roundtrip (c : ServiceClassMsg) :
    decodeServiceClass (encodeServiceClass c) = .ok c := by
  obtain ⟨d, e⟩ := c
  cases d <;> cases e <;>
    simp [encodeServiceClass, decodeServiceClass, optMsgField, lookupField,
      fieldsAllowed, decodeOptMsg, Except.map, decodeDeployment_roundtrip,
      decodeCatalogEntry_roundtrip]

theorem decodeServicePlan_roundtrip (p : ServicePlanMsg) :
    decodeServicePlan (encodeServicePlan p) = .ok p := by
  obtain ⟨pl, ss⟩ := p
  cases pl <;> by_cases hs : ss = [] <;>
    simp [encodeServicePlan, decodeServicePlan, optMsgField, lookupField,
      fieldsAllowed, decodeOptMsg, decodeStrList, Except.map, hs,
      decodeCatalogPlan_roundtrip, decodeStrElems_roundtrip]

/-- Claim C1: for every broker-registered schema and every message of
that schema's message type, decoding the generic map produced by
`ToJSONMap` with `FromJSONMap` returns the original message. -/
theorem schema_jsonmap_roundtrip (ps : Schema) (m : ProtoMessage) (j : JValue)
    (_hps : ps ∈ brokerDescriptor)
    (hkind : protoMessageType ps.messageName = some m.kind)
    (henc : ps.ToJSONMap m = .ok j) :
    ps.FromJSONMap j = .ok m := by
  have hj : j = encodeMessage m := by
    simpa [Schema.ToJSONMap] using henc.symm
  subst hj
  unfold Schema.FromJSONMap
  rw [hkind]
  cases m with
  | serviceClass c =>
      simp [ProtoMessage.kind, decodeAs, encodeMessage, Except.map,
        decodeServiceClass_roundtrip]
  | servicePlan p =>
      simp [ProtoMessage.kind, decodeAs, encodeMessage, Except.map,
        decodeServicePlan_roundtrip]

/-- Witness for C1: the round trip at the ServiceClass instance from
the repository's own conversion test. -/
theorem schema_jsonmap_roundtrip_witness :
    ServiceClass ∈ brokerDescriptor ∧
    protoMessageType ServiceClass.messageName =
      some (ProtoMessage.serviceClass ⟨some ⟨"productpage"⟩,
        some ⟨"istio-bookinfo-productpage", "4395a443-f49a-41b0-8d14-d17294cf612f",
          "A book info service"⟩⟩).kind ∧
    Schema.ToJSONMap ServiceClass (ProtoMessage.serviceClass ⟨some ⟨"productpage"⟩,
        some ⟨"istio-bookinfo-productpage", "4395a443-f49a-41b0-8d14-d17294cf612f",
          "A book info service"⟩⟩) =
      .ok (encodeMessage (ProtoMessage.serviceClass ⟨some ⟨"productpage"⟩,
        some ⟨"istio-bookinfo-productpage", "4395a443-f49a-41b0-8d14-d17294cf612f",
          "A book info service"⟩⟩)) ∧
    Schema.FromJSONMap ServiceClass (encodeMessage
        (ProtoMessage.serviceClass ⟨some ⟨"productpage"⟩,
          some ⟨"istio-bookinfo-productpage", "4395a443-f49a-41b0-8d14-d17294cf612f",
            "A book info service"⟩⟩)) =
      .ok (ProtoMessage.serviceClass ⟨some ⟨"productpage"⟩,
        some ⟨"istio-bookinfo-productpage", "4395a443-f49a-41b0-8d14-d17294cf612f",
          "A book info service"⟩⟩) :=
  ⟨List.mem_cons_self ServiceClass [ServicePlan], rfl, rfl,
   schema_jsonmap_roundtrip ServiceClass
     (ProtoMessage.serviceClass ⟨some ⟨"productpage"⟩,
       some ⟨"istio-bookinfo-productpage", "4395a443-f49a-41b0-8d14-d17294cf612f",
         "A book info service"⟩⟩)
     (encodeMessage (ProtoMessage.serviceClass ⟨some ⟨"productpage"⟩,
       some ⟨"istio-bookinfo-productpage", "4395a443-f49a-41b0-8d14-d17294cf612f",
         "A book info service"⟩⟩))
     (List.mem_cons_self ServiceClass [ServicePlan]) rfl rfl⟩

/-- Claim C3: `Descriptor.FromJSON` errors exactly when the type name
is unregistered, the spec fails to decode, or validation rejects the
decoded message; in the remaining case it returns the Entry combining
the object's metadata with the decoded, validated payload. -/
theorem descriptor_fromJSON_spec (d : Descriptor) (c : JSONConfig) :
    ((d.GetByType c.meta.type_).2 = false →
      ∃ msg, d.FromJSON c = .error msg) ∧
    (∀ err, (d.GetByType c.meta.type_).2 = true →
      (d.GetByType c.meta.type_).1.FromJSONMap c.spec = .error err →
      ∃ msg, d.FromJSON c = .error msg) ∧
    (∀ m verr, (d.GetByType c.meta.type_).2 = true →
      (d.GetByType c.meta.type_).1.FromJSONMap c.spec = .ok m →
      (d.GetByType c.meta.type_).1.Validate (some m) = some verr →
      d.FromJSON c = .error verr) ∧
    (∀ m, (d.GetByType c.meta.type_).2 = true →
      (d.GetByType c.meta.type_).1.FromJSONMap c.spec = .ok m →
      (d.GetByType c.meta.type_).1.Validate (some m) = none →
      d.FromJSON c = .ok ⟨c.meta, m⟩) ∧
    (∀ e, d.FromJSON c = .ok e →
      (d.GetByType c.meta.type_).2 = true ∧ e.meta = c.meta ∧
      (d.GetByType c.meta.type_).1.FromJSONMap c.spec = .ok e.spec ∧
      (d.GetByType c.meta.type_).1.Validate (some e.spec) = none) := by
  refine ⟨?_, ?_, ?_, ?_, ?_⟩
  · intro hnf
    rcases hget : d.GetByType c.meta.type_ with ⟨schema, found⟩
    rw [hget] at hnf
    cases found with
    | true => simp at hnf
    | false =>
        exact ⟨"unknown spec type " ++ c.meta.type_, by simp [Descriptor.FromJSON, hget]⟩
  · intro err hfound hdec
    rcases hget : d.GetByType c.meta.type_ with ⟨schema, found⟩
    rw [hget] at hfound hdec
    cases found with
    | false => simp at hfound
    | true =>
        exact ⟨"cannot parse proto message: " ++ err,
          by simp [Descriptor.FromJSON, hget, hdec]⟩
  · intro m verr hfound hdec hval
    rcases hget : d.GetByType c.meta.type_ with ⟨schema, found⟩
    rw [hget] at hfound hdec hval
    cases found with
    | false => simp at hfound
    | true => simp [Descriptor.FromJSON, hget, hdec, hval]
  · intro m hfound hdec hval
    rcases hget : d.GetByType c.meta.type_ with ⟨schema, found⟩
    rw [hget] at hfound hdec hval
    cases found with
    | false => simp at hfound
    | true => simp [Descriptor.FromJSON, hget, hdec, hval]
  · intro e he
    rcases hget : d.GetByType c.meta.type_ with ⟨schema, found⟩
    cases found with
    | false => simp [Descriptor.FromJSON, hget] at he
    | true =>
        cases hdec : schema.FromJSONMap c.spec with
        | error err => simp [Descriptor.FromJSON, hget, hdec] at he
        | ok m =>
            cases hval : schema.Validate (some m) with
            | some verr => simp [Descriptor.FromJSON, hget, hdec, hval] at he
            | none =>
                simp [Descriptor.FromJSON, hget, hdec, hval] at he
                subst he
                exact ⟨rfl, rfl, rfl, hval⟩

/-- Witness for C3: an object whose `type` is the unregistered name
`widget` makes `FromJSON` fail on the broker descriptor, returning no
Entry. -/
theorem descriptor_fromJSON_spec_witness :
    (Descriptor.GetByType brokerDescriptor "widget").2 = false ∧
    ∃ msg, Descriptor.FromJSON brokerDescriptor
      ⟨⟨"widget", "w", "ns", "", [], [], ""⟩, JValue.obj []⟩ = .error msg :=
  ⟨rfl, (descriptor_fromJSON_spec brokerDescriptor
    ⟨⟨"widget", "w", "ns", "", [], [], ""⟩, JValue.obj []⟩).1 rfl⟩

/-- Witness for C6: a Present object at revision 0 with next fresh
revision 1; the first update wins with revision 1, the second
conflicts, and Get returns the winner's value. -/
theorem optimistic_concurrency_witness :
    ∃ r2,
      (updateOp ⟨some ⟨ProtoMessage.serviceClass ⟨none, none⟩, 0⟩, 1⟩
        (ProtoMessage.serviceClass ⟨some ⟨"a"⟩, none⟩) 0).2 = .ok r2 ∧ r2 ≠ 0 ∧
      (updateOp (updateOp ⟨some ⟨ProtoMessage.serviceClass ⟨none, none⟩, 0⟩, 1⟩
          (ProtoMessage.serviceClass ⟨some ⟨"a"⟩, none⟩) 0).1
        (ProtoMessage.serviceClass ⟨some ⟨"b"⟩, none⟩) 0).2 = .error .conflict ∧
      getOp (updateOp (updateOp ⟨some ⟨ProtoMessage.serviceClass ⟨none, none⟩, 0⟩, 1⟩
          (ProtoMessage.serviceClass ⟨some ⟨"a"⟩, none⟩) 0).1
        (ProtoMessage.serviceClass ⟨some ⟨"b"⟩, none⟩) 0).1 =
        some ⟨ProtoMessage.serviceClass ⟨some ⟨"a"⟩, none⟩, r2⟩ :=
  optimistic_concurrency ⟨some ⟨ProtoMessage.serviceClass ⟨none, none⟩, 0⟩, 1⟩
    ⟨ProtoMessage.serviceClass ⟨none, none⟩, 0⟩
    (ProtoMessage.serviceClass ⟨some ⟨"a"⟩, none⟩)
    (ProtoMessage.serviceClass ⟨some ⟨"b"⟩, none⟩) rfl (by decide)

end Broker
